import Mathlib

/-!
Verification of the claude-memory note-taking system.

Strings are modelled as `List Char` (`Str`), so every operation is an
executable structural recursion.  Each definition is a direct translation
of the corresponding Python function in `src/` (the Python source file and
function are named in the doc comment).
-/

/-- Strings of the modelled program: lists of characters. -/
abbrev Str := List Char

/-- Whitespace in the sense of Python `str.strip` and the regex class
backslash-s: space, tab, newline, carriage return, vertical tab, form feed. -/
def pySpace (c : Char) : Bool :=
  c = ' ' || c = '\t' || c = '\n' || c = '\r' || c = '\x0b' || c = '\x0c'

/-- Python `str.strip()`: remove leading and trailing whitespace. -/
def pyStrip (s : Str) : Str :=
  ((s.dropWhile pySpace).reverse.dropWhile pySpace).reverse

/-- Python `str.lower()` (ASCII range, which is all this program uses). -/
def pyLower (s : Str) : Str := s.map Char.toLower

/-- Python `str.upper()` (ASCII range). -/
def pyUpper (s : Str) : Str := s.map Char.toUpper

/-- Python substring test `needle in hay`. -/
def strContains : Str → Str → Bool
  | hay, needle =>
    if needle.isPrefixOf hay then true
    else
      match hay with
      | [] => false
      | _ :: t => strContains t needle

/-- Python `hay.replace(old, new, 1)`: replace the leftmost occurrence of
`old` (no change when `old` does not occur). -/
def replaceFirst : Str → Str → Str → Str
  | hay, old, new =>
    if old.isPrefixOf hay then new ++ hay.drop old.length
    else
      match hay with
      | [] => []
      | c :: t => c :: replaceFirst t old new

/-- First line of a string (the part before the first newline). -/
def firstLine : Str → Str
  | [] => []
  | c :: t => if c = '\n' then [] else c :: firstLine t

/-- Every line after the first one. -/
def restLines : Str → List Str
  | [] => []
  | c :: t => if c = '\n' then firstLine t :: restLines t else restLines t

/-- Python `content.split("\n")`. -/
def splitNl (s : Str) : List Str := firstLine s :: restLines s

/-- Python `"\n".join(lines)`. -/
def joinNl : List Str → Str
  | [] => []
  | [l] => l
  | l :: ls => l ++ '\n' :: joinNl ls

/-!
Memory store (`src/memory_manager.py`).

The on-disk state is modelled as an association list from category name to
file content; a key being absent means the category file does not exist.
The current timestamp is passed in as a parameter.
-/

/-- File-system state of the memory store: category name to file content. -/
abbrev MemState := List (Str × Str)

/-- Lookup of the first binding of a key in an association list. -/
def lookupA (k : Str) : List (Str × Str) → Option Str
  | [] => none
  | (k1, v) :: t => if k1 = k then some v else lookupA k t

/-- Replace the first binding of a key, or append a new binding. -/
def setA (k v : Str) : List (Str × Str) → List (Str × Str)
  | [] => [(k, v)]
  | (k1, v1) :: t => if k1 = k then (k, v) :: t else (k1, v1) :: setA k v t

/-- MEMORY_CATEGORIES from `src/memory_manager.py`: the fixed categories
with their descriptions. -/
def MEMORY_CATEGORIES : List (Str × Str) :=
  [("user".data, "User profile, personal context, communication style".data),
   ("projects".data, "Active projects, status, key decisions, architecture".data),
   ("preferences".data, "Technical preferences, tools, languages, coding style".data),
   ("decisions".data, "Important decisions made and their reasoning".data)]

/-- Python `str.title()` (ASCII): uppercase every letter that follows a
non-letter, lowercase the other letters.  The flag says whether the
previous character was a non-letter. -/
def pyTitleGo : Bool → Str → Str
  | _, [] => []
  | flag, c :: t =>
    (if flag then c.toUpper else c.toLower) :: pyTitleGo (!c.isAlpha) t

/-- Python `category.title()`. -/
def pyTitle (s : Str) : Str := pyTitleGo true s

/-- Memory file read: `read_category` in `src/memory_manager.py` returns
the file content, or the empty string when the file does not exist. -/
def read_category (st : MemState) (category : Str) : Str :=
  (lookupA category st).getD []

/-- Entry block built by `add_memory` in `src/memory_manager.py`:
newline, `### ` timestamp line, optional `*Context: ...*` line, one
bullet line, trailing newline. -/
def entryStr (ts ctx mem : Str) : Str :=
  "\n### ".data ++ ts ++ "\n".data ++
    (if ctx = [] then [] else "*Context: ".data ++ ctx ++ "*\n".data) ++
    "- ".data ++ mem ++ "\n".data

/-- Header block written by `add_memory` when a category file is created:
title line, description quote, horizontal rule. -/
def headerStr (category desc : Str) : Str :=
  "# ".data ++ pyTitle category ++ "\n\n> ".data ++ desc ++ "\n\n---\n".data

/-- Translation of `add_memory` in `src/memory_manager.py`.  Returns the
success flag and the new file-system state; `ts` is the formatted current
timestamp. -/
def add_memory (st : MemState) (category mem ctx ts : Str) : Bool × MemState :=
  match lookupA category MEMORY_CATEGORIES with
  | none => (false, st)
  | some desc =>
    match lookupA category st with
    | none => (true, setA category (headerStr category desc ++ entryStr ts ctx mem) st)
    | some content => (true, setA category (content ++ entryStr ts ctx mem) st)

/-- Translation of `update_memory` in `src/memory_manager.py`, acting on
the affected category file (`none` = file does not exist).  Returns the
success flag and the new file content. -/
def update_memory (content : Option Str) (old new : Str) : Bool × Option Str :=
  match content with
  | none => (false, none)
  | some c =>
    if strContains c old then (true, some (replaceFirst c old new))
    else (false, some c)

/-- Helper of the delete loop: pop the most recent kept line when it starts
with the given marker (`new_lines[-1].startswith(...)` followed by `pop`). -/
def popIf (marker : Str) (acc : List Str) : List Str :=
  match acc with
  | [] => []
  | l :: t => if marker.isPrefixOf l then t else l :: t

/-- Line loop of `delete_memory` in `src/memory_manager.py`.  `acc` holds
the kept lines in reverse order, `skip` is `skip_until_next_entry`. -/
def delLoop (needle : Str) : List Str → List Str → Bool → List Str
  | [], acc, _ => acc.reverse
  | line :: rest, acc, skip =>
    if strContains line needle then
      delLoop needle rest (popIf "*Context:".data (popIf "### ".data acc)) true
    else
      let skip2 := if skip && ("### ".data.isPrefixOf line || "---".data.isPrefixOf line)
        then false else skip
      if skip2 then delLoop needle rest acc skip2
      else delLoop needle rest (line :: acc) skip2

/-- Translation of `delete_memory` in `src/memory_manager.py`, acting on
the affected category file.  Returns the success flag and the new file
content. -/
def delete_memory (content : Option Str) (needle : Str) : Bool × Option Str :=
  match content with
  | none => (false, none)
  | some c => (true, some (joinNl (delLoop needle (splitNl c) [] false)))

/-- Python `content.count("\n- ")`, the bullet count used by
`list_categories` in `src/memory_manager.py` (non-overlapping occurrence
count; this pattern cannot overlap itself). -/
def countNlDash : Str → Nat
  | '\n' :: '-' :: ' ' :: r2 => countNlDash r2 + 1
  | _ :: r => countNlDash r
  | [] => 0

/-- Translation of `list_categories` in `src/memory_manager.py`: one pair
per fixed category, with the `"\n- "` count of its (possibly absent)
file. -/
def list_categories (st : MemState) : List (Str × Nat) :=
  MEMORY_CATEGORIES.map (fun p => (p.1, countNlDash (read_category st p.1)))

/-!
Dashboard renderer extraction logic (`src/dashboard_generator.py`).
-/

/-- Context-line test of the dashboard loops:
`line.startswith("*Context:") and line.endswith("*")` on the stripped
line. -/
def isCtxLine (s : Str) : Bool :=
  "*Context:".data.isPrefixOf s && "*".data.isSuffixOf s

/-- Context text extraction `line[10:-1]` of the dashboard loops. -/
def ctxOf (s : Str) : Str := (s.drop 10).dropLast

/-- Bullet-line test `line.startswith("- ")` on the stripped line. -/
def isBullet (s : Str) : Bool := "- ".data.isPrefixOf s

/-- Backlog exclusion test `"idea backlog" in current_context.lower()`. -/
def isBacklogCtx (ctx : Str) : Bool :=
  strContains (pyLower ctx) "idea backlog".data

/-- Keyword test `"DONE" in text.upper()`. -/
def hasDone (t : Str) : Bool := strContains (pyUpper t) "DONE".data

/-- Keyword test `"IN PROGRESS" in text.upper() or "IN-PROGRESS" in text.upper()`. -/
def hasProg (t : Str) : Bool :=
  strContains (pyUpper t) "IN PROGRESS".data || strContains (pyUpper t) "IN-PROGRESS".data

/-- Keyword test `"TODO" in text.upper()`. -/
def hasTodo (t : Str) : Bool := strContains (pyUpper t) "TODO".data

/-- The three task buckets built by `extract_tasks`. -/
structure Tasks where
  done : List Str
  in_progress : List Str
  todo : List Str
deriving DecidableEq

/-- Line loop of `extract_tasks` in `src/dashboard_generator.py`, with the
running `current_context` as a parameter. -/
def extractTasksGo (ctx : Str) : List Str → Tasks
  | [] => ⟨[], [], []⟩
  | l :: ls =>
    let s := pyStrip l
    if isCtxLine s then extractTasksGo (ctxOf s) ls
    else if !isBullet s then extractTasksGo ctx ls
    else if isBacklogCtx ctx then extractTasksGo ctx ls
    else
      let t := s.drop 2
      let rest := extractTasksGo ctx ls
      if hasDone t then { rest with done := t :: rest.done }
      else if hasProg t then { rest with in_progress := t :: rest.in_progress }
      else if hasTodo t then { rest with todo := t :: rest.todo }
      else rest

/-- Translation of `extract_tasks` in `src/dashboard_generator.py`. -/
def extract_tasks (content : Str) : Tasks := extractTasksGo [] (splitNl content)

/-- Status tags assigned by `extract_project_entries`. -/
inductive RStatus where
  | done
  | progress
  | todo
  | info
deriving DecidableEq

/-- One roadmap item of `extract_project_entries`. -/
structure RItem where
  text : Str
  status : RStatus
deriving DecidableEq

/-- Status classification chain of `extract_project_entries`. -/
def statusOf (t : Str) : RStatus :=
  if hasDone t then .done
  else if hasProg t then .progress
  else if hasTodo t then .todo
  else .info

/-- Line loop of `extract_project_entries` in `src/dashboard_generator.py`,
with the running `current_context` as a parameter. -/
def extractEntriesGo (ctx : Str) : List Str → List RItem
  | [] => []
  | l :: ls =>
    let s := pyStrip l
    if isCtxLine s then extractEntriesGo (ctxOf s) ls
    else if !isBullet s then extractEntriesGo ctx ls
    else if isBacklogCtx ctx then extractEntriesGo ctx ls
    else ⟨s.drop 2, statusOf (s.drop 2)⟩ :: extractEntriesGo ctx ls

/-- Translation of `extract_project_entries` in `src/dashboard_generator.py`. -/
def extract_project_entries (content : Str) : List RItem :=
  extractEntriesGo [] (splitNl content)

/-- Specification-side view of the extraction loops: every bullet paired
with the context line in force where it occurs, namely the text of the
most recent context line anywhere above it (the loops never reset the
context at a `###` header). -/
def bulletCtxPairs (ctx : Str) : List Str → List (Str × Str)
  | [] => []
  | l :: ls =>
    let s := pyStrip l
    if isCtxLine s then bulletCtxPairs (ctxOf s) ls
    else if isBullet s then (s.drop 2, ctx) :: bulletCtxPairs ctx ls
    else bulletCtxPairs ctx ls

/-- Bullets that survive the backlog exclusion: those whose governing
context (in the running sense of `bulletCtxPairs`) does not contain
"idea backlog". -/
def keptBullets (ctx : Str) (ls : List Str) : List Str :=
  ((bulletCtxPairs ctx ls).filter (fun p => !isBacklogCtx p.2)).map Prod.fst

/-- Classification of a plain bullet list by the DONE / IN PROGRESS / TODO
chain of `extract_tasks`. -/
def classifyAll : List Str → Tasks
  | [] => ⟨[], [], []⟩
  | t :: ts =>
    let rest := classifyAll ts
    if hasDone t then { rest with done := t :: rest.done }
    else if hasProg t then { rest with in_progress := t :: rest.in_progress }
    else if hasTodo t then { rest with todo := t :: rest.todo }
    else rest

/-!
Idea store (`src/idea_manager.py`).

The JSON index is modelled as a list of records; the current date is
passed in as a parameter.
-/

/-- One record of the ideas index. -/
structure Idea where
  id : Str
  title : Str
  summary : Str
  priority : Nat
  project_folder : Option Str
  detail_file : Str
  created : Str
  status : Str
deriving DecidableEq

/-- Slug characters kept by `_slugify`: the regex class `[a-z0-9\s-]`
applied after lowercasing. -/
def slugKeep (c : Char) : Bool :=
  ('a' ≤ c && c ≤ 'z') || ('0' ≤ c && c ≤ '9') || pySpace c || c = '-'

/-- Regex `re.sub(r"[\s]+", "-", s)`: collapse each whitespace run to one
hyphen.  The flag says whether the previous character was whitespace. -/
def squashWs : Bool → Str → Str
  | _, [] => []
  | inRun, c :: t =>
    if pySpace c then
      if inRun then squashWs true t else '-' :: squashWs true t
    else c :: squashWs false t

/-- Regex `re.sub(r"-+", "-", s)`: collapse each hyphen run to one hyphen. -/
def squashDash : Bool → Str → Str
  | _, [] => []
  | inRun, c :: t =>
    if c = '-' then
      if inRun then squashDash true t else '-' :: squashDash true t
    else c :: squashDash false t

/-- Python `s.strip("-")`. -/
def stripDash (s : Str) : Str :=
  ((s.dropWhile (· = '-')).reverse.dropWhile (· = '-')).reverse

/-- Translation of `_slugify` in `src/idea_manager.py`. -/
def slugify (title : Str) : Str :=
  stripDash (squashDash false (squashWs false ((pyStrip (pyLower title)).filter slugKeep)))

/-- Translation of `add_idea` in `src/idea_manager.py`, acting on the
index list; `today` is the formatted current date.  Returns the created
record (`none` on slug collision) and the new index. -/
def add_idea (index : List Idea) (title summary : Str) (pf : Option Str) (today : Str) :
    Option Idea × List Idea :=
  let ideaId := slugify title
  if index.any (fun i => i.id == ideaId) then (none, index)
  else
    let idea : Idea :=
      ⟨ideaId, title, summary, 0, pf,
        "memories/ideas/".data ++ ideaId ++ ".md".data, today, "parked".data⟩
    (some idea, index ++ [idea])

/-- Update-first-match loop shared by `set_priority`, `link_project` and
`set_status` in `src/idea_manager.py`: find the first record satisfying
`p`, apply `f` to it, and report whether a record was found (on failure
the index is returned unchanged and not saved). -/
def findUpd (p : Idea → Bool) (f : Idea → Idea) : List Idea → Bool × List Idea
  | [] => (false, [])
  | i :: rest =>
    if p i then (true, f i :: rest)
    else
      let r := findUpd p f rest
      (r.1, i :: r.2)

/-- Translation of `set_priority` in `src/idea_manager.py`. -/
def set_priority (index : List Idea) (ideaId : Str) (pr : Nat) : Bool × List Idea :=
  if pr = 0 ∨ pr = 1 ∨ pr = 2 ∨ pr = 3 then
    findUpd (fun i => i.id == ideaId) (fun i => { i with priority := pr }) index
  else (false, index)

/-- Translation of `link_project` in `src/idea_manager.py`. -/
def link_project (index : List Idea) (ideaId : Str) (folder : Str) : Bool × List Idea :=
  findUpd (fun i => i.id == ideaId) (fun i => { i with project_folder := some folder }) index

/-- Translation of `set_status` in `src/idea_manager.py`. -/
def set_status (index : List Idea) (ideaId : Str) (status : Str) : Bool × List Idea :=
  if status = "parked".data ∨ status = "active".data ∨ status = "done".data then
    findUpd (fun i => i.id == ideaId) (fun i => { i with status := status }) index
  else (false, index)

/-- Sort key of `list_ideas` in `src/idea_manager.py`:
`p if p > 0 else 99`. -/
def sortKey (i : Idea) : Nat := if i.priority > 0 then i.priority else 99

/-- Stable insertion of a record in front of the first record of
greater-or-equal key. -/
def insertIdea (x : Idea) : List Idea → List Idea
  | [] => [x]
  | y :: ys => if sortKey x ≤ sortKey y then x :: y :: ys else y :: insertIdea x ys

/-- Translation of `list_ideas` in `src/idea_manager.py`.  Python
`sorted(..., key=sort_key)` is a stable sort; insertion sort placing each
record before the first later-inserted record of greater-or-equal key is
stable, hence extensionally equal to it. -/
def list_ideas : List Idea → List Idea
  | [] => []
  | x :: xs => insertIdea x (list_ideas xs)

/-- Bullet-line count in the sense of the specification text under test:
the number of lines whose content after trimming starts with `- `.
Modelled from the claim wording, for comparison with `list_categories`. -/
def bulletLinesTrimmed (s : Str) : Nat :=
  ((splitNl s).filter (fun l => isBullet (pyStrip l))).length

/-!
Helper lemmas.
-/

/-- A string passes `isBullet` exactly when it starts with a dash and a
space. -/
theorem isBullet_iff (r : Str) : isBullet r = true ↔ ∃ t, r = '-' :: ' ' :: t := by
  match r with
  | [] => simp [isBullet, List.isPrefixOf]
  | [c] => simp [isBullet, List.isPrefixOf]
  | c :: c2 :: t =>
    constructor
    · intro h
      simp [isBullet, List.isPrefixOf] at h
      exact ⟨t, by rw [← h.1, ← h.2]⟩
    · rintro ⟨t2, ht⟩
      cases ht
      simp [isBullet, List.isPrefixOf]

/-- Taking the first line preserves the bullet test. -/
theorem isBullet_firstLine (r : Str) : isBullet (firstLine r) = isBullet r := by
  match r with
  | [] => rfl
  | c :: t =>
    by_cases hc : c = '\n'
    · subst hc
      simp [firstLine, isBullet, List.isPrefixOf]
    · rw [firstLine, if_neg hc]
      match t with
      | [] => simp [isBullet, List.isPrefixOf, firstLine]
      | c2 :: t2 =>
        by_cases hc2 : c2 = '\n'
        · subst hc2
          simp [firstLine, isBullet, List.isPrefixOf]
        · rw [firstLine, if_neg hc2]
          simp [isBullet, List.isPrefixOf]

/-- The `"\n- "` occurrence count equals the number of lines after the
first that start with `- `. -/
theorem countNlDash_eq (s : Str) :
    countNlDash s = ((restLines s).filter (fun l => isBullet l)).length := by
  induction s using countNlDash.induct with
  | case1 r2 ih =>
    have h1 : ¬('-' : Char) = '\n' := by decide
    have h2 : ¬(' ' : Char) = '\n' := by decide
    rw [countNlDash, restLines, if_pos rfl, restLines, if_neg h1, restLines, if_neg h2]
    rw [firstLine, if_neg h1, firstLine, if_neg h2]
    have hb : isBullet ('-' :: ' ' :: firstLine r2) = true :=
      (isBullet_iff _).mpr ⟨firstLine r2, rfl⟩
    simp [hb, ih]
  | case2 c r h ih =>
    rw [countNlDash.eq_2 _ _ h]
    by_cases hc : c = '\n'
    · subst hc
      rw [restLines, if_pos rfl]
      have hr : isBullet r = false := by
        cases hb : isBullet r
        · rfl
        · obtain ⟨t, ht⟩ := (isBullet_iff r).mp hb
          exact (h t rfl ht).elim
      simp [List.filter, isBullet_firstLine, hr, ih]
    · rw [restLines, if_neg hc]
      exact ih
  | case3 => rfl

/-- The task-extraction loop classifies exactly the bullets kept by the
running-context backlog exclusion. -/
theorem extractTasksGo_eq (ls : List Str) :
    ∀ ctx, extractTasksGo ctx ls = classifyAll (keptBullets ctx ls) := by
  induction ls with
  | nil => intro ctx; rfl
  | cons l ls ih =>
    intro ctx
    by_cases h1 : isCtxLine (pyStrip l) = true
    · simp [extractTasksGo, keptBullets, bulletCtxPairs, h1, ih]
    · by_cases h2 : isBullet (pyStrip l) = true
      · by_cases h3 : isBacklogCtx ctx = true
        · simp [extractTasksGo, keptBullets, bulletCtxPairs, h1, h2, h3, ih]
        · simp [extractTasksGo, keptBullets, bulletCtxPairs, classifyAll, h1, h2, h3, ih]
      · simp [extractTasksGo, keptBullets, bulletCtxPairs, h1, h2, ih]

/-- The roadmap-extraction loop emits exactly the kept bullets, each with
its keyword status. -/
theorem extractEntriesGo_eq (ls : List Str) :
    ∀ ctx, extractEntriesGo ctx ls =
      (keptBullets ctx ls).map (fun t => ⟨t, statusOf t⟩) := by
  induction ls with
  | nil => intro ctx; rfl
  | cons l ls ih =>
    intro ctx
    by_cases h1 : isCtxLine (pyStrip l) = true
    · simp [extractEntriesGo, keptBullets, bulletCtxPairs, h1, ih]
    · by_cases h2 : isBullet (pyStrip l) = true
      · by_cases h3 : isBacklogCtx ctx = true
        · simp [extractEntriesGo, keptBullets, bulletCtxPairs, h1, h2, h3, ih]
        · simp [extractEntriesGo, keptBullets, bulletCtxPairs, h1, h2, h3, ih]
      · simp [extractEntriesGo, keptBullets, bulletCtxPairs, h1, h2, ih]

/-- The classification chain sorts a bullet list into the three buckets by
the first matching keyword. -/
theorem classifyAll_eq (ts : List Str) :
    classifyAll ts =
      ⟨ts.filter (fun t => hasDone t),
       ts.filter (fun t => !hasDone t && hasProg t),
       ts.filter (fun t => !hasDone t && !hasProg t && hasTodo t)⟩ := by
  induction ts with
  | nil => rfl
  | cons t ts ih =>
    by_cases hd : hasDone t = true
    · simp [classifyAll, List.filter, hd, ih]
    · by_cases hp : hasProg t = true
      · simp [classifyAll, List.filter, hd, hp, ih]
      · by_cases ht : hasTodo t = true
        · simp [classifyAll, List.filter, hd, hp, ht, ih]
        · simp [classifyAll, List.filter, hd, hp, ht, ih]

/-- A needle that passes `strContains` occurs in the haystack, and
`replaceFirst` rewrites exactly its leftmost occurrence. -/
theorem replaceFirst_spec (old new : Str) :
    ∀ c : Str, strContains c old = true →
      ∃ p s, c = p ++ old ++ s ∧
        replaceFirst c old new = p ++ new ++ s ∧
        ∀ q s2, c = q ++ old ++ s2 → p.length ≤ q.length := by
  intro c
  induction c with
  | nil =>
    intro h
    rw [strContains] at h
    have hold : old = [] := by
      by_cases hp : old.isPrefixOf ([] : Str) = true
      · exact List.prefix_nil.mp (List.isPrefixOf_iff_prefix.mp hp)
      · rw [if_neg hp] at h
        exact absurd h (by simp)
    subst hold
    exact ⟨[], [], rfl, by rw [replaceFirst]; simp [List.isPrefixOf], by simp⟩
  | cons ch t ih =>
    intro h
    by_cases hp : old.isPrefixOf (ch :: t) = true
    · obtain ⟨s, hs⟩ := List.isPrefixOf_iff_prefix.mp hp
      refine ⟨[], s, by rw [← hs]; rfl, ?_, by simp⟩
      rw [replaceFirst, if_pos hp, ← hs]
      simp [List.drop_left]
    · rw [strContains, if_neg hp] at h
      obtain ⟨p, s, hc, hr, hmin⟩ := ih h
      refine ⟨ch :: p, s, by rw [List.cons_append, List.cons_append, ← hc], ?_, ?_⟩
      · rw [replaceFirst, if_neg hp, hr]
        simp
      · intro q s2 hq
        match q with
        | [] =>
          exfalso
          apply hp
          apply List.isPrefixOf_iff_prefix.mpr
          rw [hq]
          simp
        | qh :: q2 =>
          have ht : t = q2 ++ old ++ s2 := by
            have := hq
            rw [List.cons_append, List.cons_append] at this
            exact (List.cons.injEq _ _ _ _ ▸ this).2
          have := hmin q2 s2 ht
          simp [List.length_cons]
          omega

/-- Every sort key is at least one. -/
theorem one_le_sortKey (i : Idea) : 1 ≤ sortKey i := by
  rw [sortKey]
  split <;> omega

/-- Insertion in front: a record whose key is at most every key of the
list goes first. -/
theorem insertIdea_front (x : Idea) (B : List Idea)
    (h : ∀ y ∈ B, sortKey x ≤ sortKey y) : insertIdea x B = x :: B := by
  match B with
  | [] => rfl
  | y :: ys => rw [insertIdea, if_pos (h y (List.mem_cons_self y ys))]

/-- Insertion skips a block of records with strictly smaller keys. -/
theorem insertIdea_append (x : Idea) (A : List Idea)
    (h : ∀ y ∈ A, sortKey y < sortKey x) :
    ∀ B, insertIdea x (A ++ B) = A ++ insertIdea x B := by
  induction A with
  | nil => intro B; rfl
  | cons a A ih =>
    intro B
    have ha : sortKey a < sortKey x := h a (List.mem_cons_self a A)
    rw [List.cons_append, insertIdea, if_neg (by omega), List.cons_append]
    rw [ih (fun y hy => h y (List.mem_cons_of_mem a hy)) B]

/-- Records selected by a priority filter have that priority. -/
theorem mem_filter_priority (k : Nat) (l : List Idea) (y : Idea)
    (hy : y ∈ l.filter (fun i => i.priority == k)) : y.priority = k := by
  have := List.of_mem_filter hy
  simpa using this

/-- The shared find-and-update loop on a list whose initial segment does
not satisfy the test updates exactly the first hit. -/
theorem findUpd_append (p : Idea → Bool) (f : Idea → Idea) (i : Idea) (post : List Idea)
    (hi : p i = true) :
    ∀ L, (∀ j ∈ L, p j = false) →
      findUpd p f (L ++ i :: post) = (true, L ++ f i :: post) := by
  intro L
  induction L with
  | nil => intro _; rw [List.nil_append, findUpd, if_pos hi, List.nil_append]
  | cons a L ih =>
    intro h
    have ha : p a = false := h a (List.mem_cons_self a L)
    rw [List.cons_append, findUpd, if_neg (by simp [ha])]
    rw [ih (fun j hj => h j (List.mem_cons_of_mem a hj))]
    simp

/-- Looking up the key just written by `setA` yields the written value. -/
theorem lookupA_setA_self (k v : Str) : ∀ st, lookupA k (setA k v st) = some v := by
  intro st
  induction st with
  | nil => simp [setA, lookupA]
  | cons b t ih =>
    by_cases hb : b.1 = k
    · rw [setA, if_pos hb, lookupA, if_pos rfl]
    · rw [setA, if_neg hb, lookupA, if_neg hb]
      exact ih

/-- Writing one key with `setA` leaves every other key unchanged. -/
theorem lookupA_setA_ne (k v k2 : Str) (h : k2 ≠ k) :
    ∀ st, lookupA k2 (setA k v st) = lookupA k2 st := by
  intro st
  induction st with
  | nil => simp [setA, lookupA, Ne.symm h]
  | cons b t ih =>
    by_cases hb : b.1 = k
    · rw [setA, if_pos hb, lookupA, if_neg (fun e => h (e.symm)), lookupA, if_neg]
      rw [hb]
      exact fun e => h e.symm
    · rw [setA, if_neg hb, lookupA, lookupA]
      by_cases hb2 : b.1 = k2
      · rw [if_pos hb2, if_pos hb2]
      · rw [if_neg hb2, if_neg hb2]
        exact ih

/-!
Claim theorems.
-/

/-- C1: evaluation of `delete_memory` at a store holding one entry with a
context line.  The needle matches the bullet, yet the rewritten file still
contains the `### 2024-01-01 10:00` timestamp header: the code checks the
previously kept line for `### ` before popping the context line, so when a
context line is present the header is never removed, contradicting the
claim that the bullet is deleted together with its timestamp header and
context line. -/
theorem c1_delete_orphan_header :
    delete_memory
        (some "# Projects\n\n> desc\n\n---\n\n### 2024-01-01 10:00\n*Context: setup*\n- target item\n".data)
        "target".data =
      (true, some "# Projects\n\n> desc\n\n---\n\n### 2024-01-01 10:00".data) := by
  decide

/-- C2: evaluation of `delete_memory` at an existing store none of whose
lines contains the needle.  The code rewrites the identical content and
returns `true`, contradicting the claim that a failure indicator is
returned when no line contains the needle. -/
theorem c2_delete_missing_needle_true :
    delete_memory (some "# User\n\n> d\n\n---\n\n### T\n- keep this\n".data) "absent".data =
      (true, some "# User\n\n> d\n\n---\n\n### T\n- keep this\n".data) := by
  decide

/-- C3 counterexample: a projects file whose first entry carries the
context line `*Context: idea backlog*` and whose second entry (under its
own `### h` header) has no context line of its own.  The claim says the
second bullet `TODO b` is included in the task buckets and the roadmap;
the code carries the context across the entry boundary and excludes both
bullets, leaving every bucket and the roadmap empty. -/
theorem c3_counterexample :
    extract_tasks "*Context: idea backlog*\n- TODO a\n### h\n- TODO b\n".data = ⟨[], [], []⟩ ∧
    extract_project_entries "*Context: idea backlog*\n- TODO a\n### h\n- TODO b\n".data = [] := by
  constructor
  · decide
  · decide

/-- C3 amended: a bullet of the projects category is excluded from the
three task buckets and from the roadmap list if and only if the most
recent context line preceding it anywhere in the file (the running
context, which is not reset at `###` entry headers) case-insensitively
contains "idea backlog"; the kept bullets are classified in order. -/
theorem c3_running_context_exclusion (content : Str) :
    extract_tasks content = classifyAll (keptBullets [] (splitNl content)) ∧
    extract_project_entries content =
      (keptBullets [] (splitNl content)).map (fun t => ⟨t, statusOf t⟩) :=
  ⟨extractTasksGo_eq (splitNl content) [], extractEntriesGo_eq (splitNl content) []⟩

/-- C6: every bullet kept by the extraction is classified by
case-insensitive substring checks in the fixed order DONE, then
IN PROGRESS / IN-PROGRESS, then TODO; the first matching keyword wins, and
a bullet matching none of them lands in no bucket. -/
theorem c6_classification_precedence (content : Str) :
    (extract_tasks content).done =
      (keptBullets [] (splitNl content)).filter (fun t => hasDone t) ∧
    (extract_tasks content).in_progress =
      (keptBullets [] (splitNl content)).filter (fun t => !hasDone t && hasProg t) ∧
    (extract_tasks content).todo =
      (keptBullets [] (splitNl content)).filter
        (fun t => !hasDone t && !hasProg t && hasTodo t) := by
  have h := extractTasksGo_eq (splitNl content) []
  rw [extract_tasks, h, classifyAll_eq]
  exact ⟨rfl, rfl, rfl⟩

/-- C9 counterexample: a user file whose only bullet line is indented.
After trimming the line starts with `- `, so the claim predicts a count of
one, but `list_categories` counts occurrences of the substring
newline-dash-space and reports zero. -/
theorem c9_counterexample :
    bulletLinesTrimmed "# U\n  - indented\n".data = 1 ∧
    list_categories [("user".data, "# U\n  - indented\n".data)] =
      [("user".data, 0), ("projects".data, 0), ("preferences".data, 0),
       ("decisions".data, 0)] := by
  constructor
  · decide
  · decide

/-- C9 amended: `list_categories` returns an entry for every one of the
four fixed categories, including categories with no stored content, and
for each category the reported count equals the number of lines after the
first line that start with `- ` without trimming (equivalently, the number
of occurrences of newline followed by `- ` in the raw content). -/
theorem c9_counts_untrimmed_lines (st : MemState) :
    (list_categories st).map Prod.fst =
      ["user".data, "projects".data, "preferences".data, "decisions".data] ∧
    list_categories st =
      MEMORY_CATEGORIES.map (fun p =>
        (p.1, ((restLines (read_category st p.1)).filter (fun l => isBullet l)).length)) := by
  constructor
  · rfl
  · rw [list_categories]
    apply List.map_congr_left
    intro p _
    rw [countNlDash_eq]

/-- C4: `update_memory` fails and leaves the content unchanged when the
old text is not a substring of an existing category content, and otherwise
succeeds after replacing exactly the first occurrence of the old text,
even when it occurs several times. -/
theorem c4_update_first_occurrence (content : Option Str) (old new : Str) :
    (¬(∃ c, content = some c ∧ strContains c old = true) →
        update_memory content old new = (false, content)) ∧
    (∀ c, content = some c → strContains c old = true →
        ∃ p s, c = p ++ old ++ s ∧
          update_memory content old new = (true, some (p ++ new ++ s)) ∧
          ∀ q s2, c = q ++ old ++ s2 → p.length ≤ q.length) := by
  constructor
  · intro h
    match content with
    | none => rfl
    | some c =>
      have hc : strContains c old = false := by
        cases hcc : strContains c old
        · rfl
        · exact (h ⟨c, rfl, hcc⟩).elim
      simp [update_memory, hc]
  · intro c hc hcont
    subst hc
    obtain ⟨p, s, h1, h2, h3⟩ := replaceFirst_spec old new c hcont
    refine ⟨p, s, h1, ?_, h3⟩
    simp [update_memory, hcont, h2]

/-- C4 witness: the update of `aXbXc` replacing `X` by `Y` succeeds and
rewrites the leftmost occurrence. -/
theorem c4_witness :
    (∃ p s, "aXbXc".data = p ++ "X".data ++ s ∧
      update_memory (some "aXbXc".data) "X".data "Y".data = (true, some (p ++ "Y".data ++ s)) ∧
      ∀ q s2, "aXbXc".data = q ++ "X".data ++ s2 → p.length ≤ q.length) ∧
    update_memory (some "abc".data) "zz".data "Y".data = (false, some "abc".data) :=
  ⟨(c4_update_first_occurrence (some "aXbXc".data) "X".data "Y".data).2 "aXbXc".data rfl
      (by decide),
   (c4_update_first_occurrence (some "abc".data) "zz".data "Y".data).1 (by
      rintro ⟨c, hc, hcont⟩
      rw [← Option.some.inj hc] at hcont
      exact absurd hcont (by decide))⟩

/-- C5: `list_ideas` returns the records sorted ascending by priority with
unset priority zero ranked last, ties keeping their original order: the
result is the priority-one records in order, then priority two, then
three, then zero. -/
theorem c5_list_ideas_sorted (l : List Idea) (h : ∀ i ∈ l, i.priority ≤ 3) :
    list_ideas l =
      l.filter (fun i => i.priority == 1) ++ l.filter (fun i => i.priority == 2) ++
        l.filter (fun i => i.priority == 3) ++ l.filter (fun i => i.priority == 0) := by
  induction l with
  | nil => rfl
  | cons x xs ih =>
    have hx : x.priority ≤ 3 := h x (List.mem_cons_self x xs)
    have hxs : ∀ i ∈ xs, i.priority ≤ 3 := fun i hi => h i (List.mem_cons_of_mem x hi)
    have key1 : ∀ y ∈ xs.filter (fun i => i.priority == 1), sortKey y = 1 := fun y hy => by
      rw [sortKey, mem_filter_priority 1 xs y hy]; decide
    have key2 : ∀ y ∈ xs.filter (fun i => i.priority == 2), sortKey y = 2 := fun y hy => by
      rw [sortKey, mem_filter_priority 2 xs y hy]; decide
    have key3 : ∀ y ∈ xs.filter (fun i => i.priority == 3), sortKey y = 3 := fun y hy => by
      rw [sortKey, mem_filter_priority 3 xs y hy]; decide
    have key0 : ∀ y ∈ xs.filter (fun i => i.priority == 0), sortKey y = 99 := fun y hy => by
      rw [sortKey, mem_filter_priority 0 xs y hy]; decide
    rw [list_ideas, ih hxs]
    have hp : x.priority = 0 ∨ x.priority = 1 ∨ x.priority = 2 ∨ x.priority = 3 := by omega
    rcases hp with hp | hp | hp | hp
    · have hkx : sortKey x = 99 := by rw [sortKey, hp]; decide
      rw [insertIdea_append x _ (fun y hy => by
        rcases List.mem_append.mp hy with hy | hy
        · rcases List.mem_append.mp hy with hy | hy
          · rw [key1 y hy, hkx]; omega
          · rw [key2 y hy, hkx]; omega
        · rw [key3 y hy, hkx]; omega)]
      rw [insertIdea_front x _ (fun y hy => by rw [key0 y hy, hkx])]
      simp [List.filter_cons, hp]
    · have hkx : sortKey x = 1 := by rw [sortKey, hp]; decide
      rw [insertIdea_front x _ (fun y _ => by rw [hkx]; exact one_le_sortKey y)]
      simp [List.filter_cons, hp]
    · have hkx : sortKey x = 2 := by rw [sortKey, hp]; decide
      rw [List.append_assoc, List.append_assoc]
      rw [insertIdea_append x _ (fun y hy => by rw [key1 y hy, hkx]; omega)]
      rw [insertIdea_front x _ (fun y hy => by
        rcases List.mem_append.mp hy with hy | hy
        · rw [key2 y hy, hkx]
        · rcases List.mem_append.mp hy with hy | hy
          · rw [key3 y hy, hkx]; omega
          · rw [key0 y hy, hkx]; omega)]
      simp [List.filter_cons, hp, List.append_assoc]
    · have hkx : sortKey x = 3 := by rw [sortKey, hp]; decide
      have hassoc :
          xs.filter (fun i => i.priority == 1) ++ xs.filter (fun i => i.priority == 2) ++
              xs.filter (fun i => i.priority == 3) ++ xs.filter (fun i => i.priority == 0) =
            (xs.filter (fun i => i.priority == 1) ++ xs.filter (fun i => i.priority == 2)) ++
              (xs.filter (fun i => i.priority == 3) ++ xs.filter (fun i => i.priority == 0)) := by
        simp [List.append_assoc]
      rw [hassoc]
      rw [insertIdea_append x _ (fun y hy => by
        rcases List.mem_append.mp hy with hy | hy
        · rw [key1 y hy, hkx]; omega
        · rw [key2 y hy, hkx]; omega)]
      rw [insertIdea_front x _ (fun y hy => by
        rcases List.mem_append.mp hy with hy | hy
        · rw [key3 y hy, hkx]
        · rw [key0 y hy, hkx]; omega)]
      simp [List.filter_cons, hp, List.append_assoc]

/-- C5 witness: five ideas inserted with priorities 0, 2, 1, 0, 3 come
back ordered with priorities 1, 2, 3, 0, 0, equal priorities keeping
insertion order. -/
theorem c5_witness :
    (list_ideas
        [⟨"a".data, [], [], 0, none, [], [], "parked".data⟩,
         ⟨"b".data, [], [], 2, none, [], [], "parked".data⟩,
         ⟨"c".data, [], [], 1, none, [], [], "parked".data⟩,
         ⟨"d".data, [], [], 0, none, [], [], "parked".data⟩,
         ⟨"e".data, [], [], 3, none, [], [], "parked".data⟩]).map Idea.priority =
      [1, 2, 3, 0, 0] := by
  rw [c5_list_ideas_sorted _ (by decide)]
  decide

/-- C7: an idea add whose title slugifies to the id of an existing record
returns no record and leaves the index entirely unchanged. -/
theorem c7_add_idea_duplicate (index : List Idea) (title summary : Str) (pf : Option Str)
    (today : Str) (h : ∃ i ∈ index, i.id = slugify title) :
    add_idea index title summary pf today = (none, index) := by
  have hany : index.any (fun i => i.id == slugify title) = true := by
    obtain ⟨i, hi, hid⟩ := h
    exact List.any_eq_true.mpr ⟨i, hi, by simp [hid]⟩
  simp [add_idea, hany]

/-- C7 witness: adding a second "Hello World" idea fails and keeps the
one-record index as it was. -/
theorem c7_witness :
    add_idea
        [⟨"hello-world".data, "Hello World".data, "s".data, 0, none,
          "memories/ideas/hello-world.md".data, "2024-01-01".data, "parked".data⟩]
        "Hello World".data "again".data none "2024-02-02".data =
      (none,
        [⟨"hello-world".data, "Hello World".data, "s".data, 0, none,
          "memories/ideas/hello-world.md".data, "2024-01-01".data, "parked".data⟩]) :=
  c7_add_idea_duplicate _ "Hello World".data "again".data none "2024-02-02".data (by decide)

/-- Valid-category behaviour of `add_memory`: success, the category file
gains exactly the new entry block (after the old content, or after the
fresh header when the file did not exist), and every other file is
unchanged. -/
theorem add_memory_valid (st : MemState) (category mem ctx ts desc : Str)
    (hdesc : lookupA category MEMORY_CATEGORIES = some desc) :
    (add_memory st category mem ctx ts).1 = true ∧
    lookupA category (add_memory st category mem ctx ts).2 =
      some ((match lookupA category st with
             | none => headerStr category desc
             | some c => c) ++ entryStr ts ctx mem) ∧
    ∀ k, k ≠ category → lookupA k (add_memory st category mem ctx ts).2 = lookupA k st := by
  simp only [add_memory, hdesc]
  cases hst : lookupA category st with
  | none =>
    exact ⟨rfl, lookupA_setA_self _ _ st, fun k hk => lookupA_setA_ne _ _ k hk st⟩
  | some c =>
    exact ⟨rfl, lookupA_setA_self _ _ st, fun k hk => lookupA_setA_ne _ _ k hk st⟩

/-- C8: `add_memory` on a category outside the fixed four fails and
leaves the file system unchanged (no file is created); on a category in
the fixed set it succeeds and appends a new timestamped entry to that
category file, leaving every other file unchanged. -/
theorem c8_add_category_validation (st : MemState) (category mem ctx ts : Str) :
    (category ∉ ["user".data, "projects".data, "preferences".data, "decisions".data] →
        add_memory st category mem ctx ts = (false, st)) ∧
    (category ∈ ["user".data, "projects".data, "preferences".data, "decisions".data] →
        ∃ desc, lookupA category MEMORY_CATEGORIES = some desc ∧
          (add_memory st category mem ctx ts).1 = true ∧
          lookupA category (add_memory st category mem ctx ts).2 =
            some ((match lookupA category st with
                   | none => headerStr category desc
                   | some c => c) ++ entryStr ts ctx mem) ∧
          ∀ k, k ≠ category →
            lookupA k (add_memory st category mem ctx ts).2 = lookupA k st) := by
  constructor
  · intro h
    simp only [List.mem_cons, List.not_mem_nil, or_false, not_or] at h
    obtain ⟨h1, h2, h3, h4⟩ := h
    have hn : lookupA category MEMORY_CATEGORIES = none := by
      simp only [MEMORY_CATEGORIES, lookupA]
      rw [if_neg (fun e => h1 e.symm), if_neg (fun e => h2 e.symm),
        if_neg (fun e => h3 e.symm), if_neg (fun e => h4 e.symm)]
    rw [add_memory, hn]
  · intro h
    fin_cases h
    · exact ⟨_, rfl, add_memory_valid st _ mem ctx ts _ rfl⟩
    · exact ⟨_, rfl, add_memory_valid st _ mem ctx ts _ rfl⟩
    · exact ⟨_, rfl, add_memory_valid st _ mem ctx ts _ rfl⟩
    · exact ⟨_, rfl, add_memory_valid st _ mem ctx ts _ rfl⟩

/-- C8 witness: on the empty file system, an unknown category fails with
no file created, and the user category succeeds with the header plus the
new entry. -/
theorem c8_witness :
    add_memory [] "zeta".data "m".data [] "T".data = (false, []) ∧
    ∃ desc, lookupA "user".data MEMORY_CATEGORIES = some desc ∧
      (add_memory [] "user".data "m".data [] "T".data).1 = true ∧
      lookupA "user".data (add_memory [] "user".data "m".data [] "T".data).2 =
        some ((match lookupA "user".data ([] : MemState) with
               | none => headerStr "user".data desc
               | some c => c) ++ entryStr "T".data [] "m".data) ∧
      ∀ k, k ≠ "user".data →
        lookupA k (add_memory [] "user".data "m".data [] "T".data).2 =
          lookupA k ([] : MemState) :=
  ⟨(c8_add_category_validation [] "zeta".data "m".data [] "T".data).1 (by decide),
   (c8_add_category_validation [] "user".data "m".data [] "T".data).2 (by decide)⟩

/-- C10: a successful `set_priority`, `set_status` or `link_project` on
the unique record carrying the target id rewrites only the targeted field
of that record, keeping its other fields and every other record of the
index unchanged. -/
theorem c10_setters_frame (pre post : List Idea) (i : Idea) (ideaId : Str) (pr : Nat)
    (status folder : Str)
    (hid : i.id = ideaId)
    (hpre : ∀ j ∈ pre, j.id ≠ ideaId) (hpost : ∀ j ∈ post, j.id ≠ ideaId)
    (hpr : pr ≤ 3)
    (hstatus : status = "parked".data ∨ status = "active".data ∨ status = "done".data) :
    set_priority (pre ++ i :: post) ideaId pr =
      (true, pre ++ { i with priority := pr } :: post) ∧
    set_status (pre ++ i :: post) ideaId status =
      (true, pre ++ { i with status := status } :: post) ∧
    link_project (pre ++ i :: post) ideaId folder =
      (true, pre ++ { i with project_folder := some folder } :: post) := by
  have hi : (fun j : Idea => j.id == ideaId) i = true := by simp [hid]
  have hL : ∀ j ∈ pre, (fun j : Idea => j.id == ideaId) j = false := fun j hj => by
    simp [hpre j hj]
  refine ⟨?_, ?_, ?_⟩
  · rw [set_priority, if_pos (by omega)]
    exact findUpd_append _ _ i post hi pre hL
  · rw [set_status, if_pos hstatus]
    exact findUpd_append _ _ i post hi pre hL
  · rw [link_project]
    exact findUpd_append _ _ i post hi pre hL

/-- C10 witness: on a two-record index, each setter updates only the
targeted field of the record with id `b` and keeps the record with id `a`
untouched. -/
theorem c10_witness :
    set_priority
        [⟨"a".data, [], [], 1, none, [], [], "parked".data⟩,
         ⟨"b".data, [], [], 0, none, [], [], "parked".data⟩] "b".data 2 =
      (true,
        [⟨"a".data, [], [], 1, none, [], [], "parked".data⟩,
         ⟨"b".data, [], [], 2, none, [], [], "parked".data⟩]) ∧
    set_status
        [⟨"a".data, [], [], 1, none, [], [], "parked".data⟩,
         ⟨"b".data, [], [], 0, none, [], [], "parked".data⟩] "b".data "active".data =
      (true,
        [⟨"a".data, [], [], 1, none, [], [], "parked".data⟩,
         ⟨"b".data, [], [], 0, none, [], [], "active".data⟩]) ∧
    link_project
        [⟨"a".data, [], [], 1, none, [], [], "parked".data⟩,
         ⟨"b".data, [], [], 0, none, [], [], "parked".data⟩] "b".data "pro/j".data =
      (true,
        [⟨"a".data, [], [], 1, none, [], [], "parked".data⟩,
         ⟨"b".data, [], [], 0, some "pro/j".data, [], [], "parked".data⟩]) :=
  c10_setters_frame
    [⟨"a".data, [], [], 1, none, [], [], "parked".data⟩] []
    ⟨"b".data, [], [], 0, none, [], [], "parked".data⟩ "b".data 2 "active".data "pro/j".data
    rfl (by decide) (by decide) (by decide) (by decide)
